import Mathlib

/-!
Verification development for the product identity-resolution pipeline of the
`emissornfe` repository (`src/db.py`).  The Python functions are shallowly
embedded as executable Lean definitions: the database session is a `DBState`
record of table rows, SQL statements become explicit list operations, and
SQL errors (NOT NULL / foreign-key violations) are surfaced through `Except`.
The external `rapidfuzz` similarity scorer is an opaque collaborator of
`best_suggestion` and is therefore taken as an explicit function parameter.
-/

namespace Emissor

/-! ### Character classes (ASCII semantics of the Python regexes in `db.py`) -/

/-- Python `\s` on ASCII text: space, tab, newline, carriage return,
vertical tab, form feed. -/
def isPySpace (c : Char) : Bool :=
  c.toNat = 32 || c.toNat = 9 || c.toNat = 10 || c.toNat = 13 ||
  c.toNat = 11 || c.toNat = 12

def isAsciiUpper (c : Char) : Bool := 65 ≤ c.toNat && c.toNat ≤ 90

def isAsciiLower (c : Char) : Bool := 97 ≤ c.toNat && c.toNat ≤ 122

def isDigitCh (c : Char) : Bool := 48 ≤ c.toNat && c.toNat ≤ 57

/-- Python `\b` word characters on ASCII text: `[A-Za-z0-9_]`. -/
def isWordChar (c : Char) : Bool :=
  isAsciiUpper c || isAsciiLower c || isDigitCh c || c.toNat = 95

/-- Characters kept by `re.sub(r"[^A-Z0-9\s]", " ", s)` in `normalize_name`. -/
def keepChar (c : Char) : Bool := isAsciiUpper c || isDigitCh c || isPySpace c

/-- One character of step (4) of `normalize_name`: every character that is not
an ASCII uppercase letter, digit or whitespace becomes a single space. -/
def punctToSpace (c : Char) : Char := if keepChar c then c else ' '

/-- Python `str.upper()` restricted to ASCII input (the string is pure ASCII
at that point of `normalize_name`, having gone through
`.encode("ascii", "ignore")`). -/
def asciiUpperChar (c : Char) : Char :=
  if isAsciiLower c then Char.ofNat (c.toNat - 32) else c

/-- Accent folding of one character: model of
`unicodedata.normalize("NFKD", ·).encode("ascii", "ignore")` restricted to
the Latin letters this catalog sees.  ASCII characters are NFKD-invariant and
survive the ASCII encoding unchanged; accented Latin-1 letters decompose into
their base letter plus a combining mark that the encoding drops; any other
non-ASCII character is dropped entirely. -/
def foldTable (c : Char) : List Char :=
  match c with
  | 'á' | 'à' | 'â' | 'ã' | 'ä' | 'ª' => ['a']
  | 'Á' | 'À' | 'Â' | 'Ã' | 'Ä' => ['A']
  | 'é' | 'è' | 'ê' | 'ë' => ['e']
  | 'É' | 'È' | 'Ê' | 'Ë' => ['E']
  | 'í' | 'ì' | 'î' | 'ï' => ['i']
  | 'Í' | 'Ì' | 'Î' | 'Ï' => ['I']
  | 'ó' | 'ò' | 'ô' | 'õ' | 'ö' | 'º' => ['o']
  | 'Ó' | 'Ò' | 'Ô' | 'Õ' | 'Ö' => ['O']
  | 'ú' | 'ù' | 'û' | 'ü' => ['u']
  | 'Ú' | 'Ù' | 'Û' | 'Ü' => ['U']
  | 'ç' => ['c']
  | 'Ç' => ['C']
  | 'ñ' => ['n']
  | 'Ñ' => ['N']
  | '¹' => ['1']
  | '²' => ['2']
  | '³' => ['3']
  | _ => []

def asciiFoldChar (c : Char) : List Char :=
  if c.toNat ≤ 127 then [c] else foldTable c

/-! ### Word-boundary substitution (the `re.sub` calls of the `ABBREV` table) -/

/-- `startsWith pat l` holds when `pat` is an initial segment of `l`. -/
def startsWith : List Char → List Char → Bool
  | [], _ => true
  | _ :: _, [] => false
  | a :: as, b :: bs => a == b && startsWith as bs

/-- `\b` to the left of the current position: the previous character (if any)
is not a word character. -/
def leftBoundary : Option Char → Bool
  | none => true
  | some c => !isWordChar c

/-- Does the remaining text start with a word character?  (`\b` after a word
character requires this to be false; `\b` after a non-word character requires
it to be true.) -/
def wordStart : List Char → Bool
  | [] => false
  | c :: _ => isWordChar c

/-- Number of characters a pattern `\bW\b` (`optDot = false`) or `\bW\.?\b`
(`optDot = true`) consumes when it matches at the START of `s` (the left
boundary is the caller's concern), `none` when it does not match there.  The
regex engine is greedy: the variant that consumes the optional dot is tried
first and needs a word character after the dot; otherwise the match ends
after `W` and needs a non-word character (or the end) next. -/
def matchLen (w : List Char) (optDot : Bool) (s : List Char) : Option Nat :=
  if startsWith w s then
    if optDot && decide ((s.drop w.length).head? = some '.') &&
        wordStart (s.drop w.length).tail then
      some (w.length + 1)
    else if wordStart (s.drop w.length) then none
    else some w.length
  else none

/-- One `re.sub(pat, repl, s)` pass for a whole-word pattern, scanning the
text left to right and replacing non-overlapping matches, exactly as the
Python regex engine does.  `prev` is the character of the ORIGINAL text
immediately before the current position (boundaries look at the original
text, not at the replacements); `skip` counts characters still to consume
silently because they belong to a match already replaced. -/
def subScan (w : List Char) (optDot : Bool) (repl : List Char) :
    Nat → Option Char → List Char → List Char
  | _, _, [] => []
  | 0, prev, c :: rest =>
    if leftBoundary prev then
      match matchLen w optDot (c :: rest) with
      | some m => repl ++ subScan w optDot repl (m - 1) (some c) rest
      | none => c :: subScan w optDot repl 0 (some c) rest
    else c :: subScan w optDot repl 0 (some c) rest
  | k + 1, _, c :: rest => subScan w optDot repl k (some c) rest

def subPat (w : List Char) (optDot : Bool) (repl : List Char) (s : List Char) :
    List Char :=
  subScan w optDot repl 0 none s

/-- The five abbreviation substitutions of the `ABBREV` dictionary, applied
in insertion order: `\bPCT\b`, `\bPCTE\b`, `\bPCT\.?\b`, `\bPTA\b`,
`\bEMB\.?\b`. -/
def applySubs (l : List Char) : List Char :=
  subPat ['E', 'M', 'B'] true ("EMBALADA".data)
    (subPat ['P', 'T', 'A'] false ("PAULISTA".data)
      (subPat ['P', 'C', 'T'] true ("PACOTE".data)
        (subPat ['P', 'C', 'T', 'E'] false ("PACOTE".data)
          (subPat ['P', 'C', 'T'] false ("PACOTE".data) l))))

/-! ### Whitespace collapsing (step 5 of `normalize_name`) -/

/-- Maximal whitespace-free tokens of the text, in order (empty runs are
dropped): the pieces `re.sub(r"\s+", " ", s).strip()` keeps.  A non-space
character either extends the token that begins right next to it or opens a
new one when a space (or the end) follows. -/
def splitWs : List Char → List (List Char)
  | [] => []
  | c :: rest =>
    if isPySpace c then splitWs rest
    else
      match rest with
      | [] => [[c]]
      | d :: _ =>
        if isPySpace d then [c] :: splitWs rest
        else (c :: (splitWs rest).headD []) :: (splitWs rest).tail

/-- Rejoin tokens with single spaces. -/
def joinSpace : List (List Char) → List Char
  | [] => []
  | [t] => t
  | t :: ts => t ++ ' ' :: joinSpace ts

/-- `re.sub(r"\s+", " ", s).strip()`: every maximal whitespace run becomes a
single space and the leading/trailing one is removed — equivalently, the
whitespace-free tokens rejoined with single spaces. -/
def collapseWs (l : List Char) : List Char := joinSpace (splitWs l)

/-- `normalize_name` from `db.py`: (1) NFKD-decompose and keep only ASCII,
(2) uppercase, (3) expand the `ABBREV` whole-word abbreviations,
(4) turn every character outside `[A-Z0-9\s]` into a space,
(5) collapse whitespace runs and trim. -/
def normalize_name (s : String) : String :=
  String.mk (collapseWs
    ((applySubs (((s.data.map asciiFoldChar).flatten).map asciiUpperChar)).map punctToSpace))

/-! ### Data model (the ORM tables of `db.py` that the pipeline touches) -/

/-- A row of the `products` table. -/
structure Product where
  id : Nat
  code : String
  name : String
  name_norm : String
  ncm : Option String
  unit : Option String
  cst_icms : Option String
  active : Bool
deriving DecidableEq, Repr

/-- A row of the `product_aliases` table (the surrogate `id` column plays no
role in any operation and is omitted; the row identity the code relies on is
the unique `(store_id, alias_norm)` pair).  The source column named `alias`
is rendered `alias_text` because `alias` is a reserved word in Lean. -/
structure ProductAlias where
  product_id : Nat
  store_id : String
  alias_text : String
  alias_norm : String
deriving DecidableEq, Repr

/-- A row of the `product_inbox` table. -/
structure InboxItem where
  id : Nat
  store_id : String
  raw_name : String
  raw_code : Option String
  raw_ncm : Option String
  raw_unit : Option String
  reason : Option String
  suggested_product_id : Option Nat
  score : Option Nat
deriving DecidableEq, Repr

/-- SQL errors that the embedded operations can raise: violating the
`NOT NULL` constraint on `products.code`, or a foreign-key violation.  Both
propagate to the caller as exceptions in the Python code. -/
inductive DBErr where
  | notNull
  | fkViolation
deriving DecidableEq, Repr

/-- The database state the pipeline reads and writes: the three tables plus
the autoincrement sequences (PostgreSQL sequences start at 1). -/
structure DBState where
  products : List Product
  aliases : List ProductAlias
  inbox : List InboxItem
  nextProductId : Nat
  nextInboxId : Nat
deriving DecidableEq, Repr

/-- The empty database produced by `init_db`. -/
def db0 : DBState := ⟨[], [], [], 1, 1⟩

/-! ### Operations of `db.py` -/

/-- The row overwrite performed by the UPDATE arm of `upsert_product_by_code`
(`UPDATE products SET name, name_norm, ncm, unit, cst_icms WHERE code=:code`:
every row matching the code gets the five fields written; `id`, `code` and
`active` are not in the SET list). -/
def updateByCode (products : List Product) (c name : String)
    (ncm unit cst_icms : Option String) : List Product :=
  products.map (fun q =>
    if q.code == c then
      { q with name := name, name_norm := normalize_name name, ncm := ncm,
               unit := unit, cst_icms := cst_icms }
    else q)

/-- The fresh active row built by the INSERT arm of `upsert_product_by_code`. -/
def newProduct (pid : Nat) (c name : String) (ncm unit cst_icms : Option String) :
    Product :=
  { id := pid, code := c, name := name, name_norm := normalize_name name,
    ncm := ncm, unit := unit, cst_icms := cst_icms, active := true }

/-- `upsert_product_by_code`: select the row with the given business `code`
(under `FOR UPDATE`); if present, overwrite `name`, `name_norm`, `ncm`,
`unit`, `cst_icms` on every row matching the code; otherwise insert a fresh
active row.  A `None` code finds no row (SQL `NULL` comparison) and the
insert then violates the `NOT NULL` constraint on `code`. -/
def upsert_product_by_code (st : DBState) (code : Option String) (name : String)
    (ncm unit cst_icms : Option String) : Except DBErr (Nat × DBState) :=
  match code with
  | none => .error .notNull
  | some c =>
    match st.products.find? (fun p => p.code == c) with
    | some p =>
      .ok (p.id, { st with products := updateByCode st.products c name ncm unit cst_icms })
    | none =>
      .ok (st.nextProductId,
        { st with
          products := st.products ++ [newProduct st.nextProductId c name ncm unit cst_icms],
          nextProductId := st.nextProductId + 1 })

/-- `ensure_alias`: `INSERT ... ON CONFLICT (store_id, alias_norm) DO
NOTHING`.  The conflict check happens first (a conflicting row means no
insert is attempted, so no foreign-key check either); an actual insert
requires the referenced product row to exist. -/
def ensure_alias (st : DBState) (product_id : Nat) (store_id alias_text : String) :
    Except DBErr DBState :=
  if st.aliases.any (fun a =>
      a.store_id == store_id && a.alias_norm == normalize_name alias_text) then
    .ok st
  else if st.products.any (fun p => p.id == product_id) then
    .ok { st with aliases := st.aliases ++
      [{ product_id := product_id, store_id := store_id,
         alias_text := alias_text, alias_norm := normalize_name alias_text }] }
  else .error .fkViolation

/-! ### Fuzzy suggestion (`best_suggestion`) -/

/-- `rapidfuzz.process.extractOne` over the index/score pair: scan the
candidate list keeping the first strictly-best score, returning
`(index, score)` of the winner, or `none` on an empty candidate list. -/
def extractGo (scorer : String → String → Nat) (q : String) :
    Nat → Nat × Nat → List String → Nat × Nat
  | _, best, [] => best
  | i, best, n :: ns =>
    if scorer q n > best.2 then extractGo scorer q (i + 1) (i, scorer q n) ns
    else extractGo scorer q (i + 1) best ns

def extractOne (scorer : String → String → Nat) (q : String) :
    List String → Option (Nat × Nat)
  | [] => none
  | n :: ns => some (extractGo scorer q 1 (0, scorer q n) ns)

/-- The `SELECT id, name_norm FROM products WHERE active` candidate rows. -/
def activeRows (st : DBState) : List Product :=
  st.products.filter (fun p => p.active)

/-- `best_suggestion`: normalize the query, score it against the normalized
names of the ACTIVE products with the external similarity scorer
(`fuzz.token_sort_ratio` — an opaque collaborator, passed as `scorer`), and
return the best candidate's id when its score reaches `min_score`, else
`none` together with the observed score.  Never mutates state. -/
def best_suggestion (st : DBState) (name : String) (min_score : Nat)
    (scorer : String → String → Nat) : Option Nat × Nat :=
  if (activeRows st).isEmpty then (none, 0)
  else
    match extractOne scorer (normalize_name name)
        ((activeRows st).map (fun p => p.name_norm)) with
    | none => (none, 0)
    | some (idx, score) =>
      if min_score ≤ score then
        (some (((activeRows st).map (fun p => p.id)).getD idx 0), score)
      else (none, score)

/-! ### Inbox operations -/

/-- The foreign-key check of the `suggested_product_id` column: `NULL` or an
existing product id. -/
def suggestedFkOk (st : DBState) : Option Nat → Bool
  | none => true
  | some i => st.products.any (fun p => p.id == i)

/-- `enqueue_inbox`: a pure insert of a review-queue row (the
`suggested_product_id` column carries a foreign key to `products`). -/
def enqueue_inbox (st : DBState) (store_id raw_name : String)
    (raw_code raw_ncm raw_unit : Option String) (reason : String)
    (suggested_product_id : Option Nat) (score : Option Nat) :
    Except DBErr DBState :=
  if suggestedFkOk st suggested_product_id then
    .ok { st with
      inbox := st.inbox ++
        [{ id := st.nextInboxId, store_id := store_id, raw_name := raw_name,
           raw_code := raw_code, raw_ncm := raw_ncm, raw_unit := raw_unit,
           reason := some reason,
           suggested_product_id := suggested_product_id, score := score }],
      nextInboxId := st.nextInboxId + 1 }
  else .error .fkViolation

/-- `approve_inbox_link_alias`: create the alias, then delete the inbox row. -/
def approve_inbox_link_alias (st : DBState) (inbox_id product_id : Nat)
    (store_id alias_text : String) : Except DBErr DBState :=
  match ensure_alias st product_id store_id alias_text with
  | .error e => .error e
  | .ok st1 => .ok { st1 with inbox := st1.inbox.filter (fun it => !(it.id == inbox_id)) }

/-- `approve_inbox_create_product`: upsert the canonical product, alias the
original inbox name to it, delete the inbox row, return the product id. -/
def approve_inbox_create_product (st : DBState) (inbox_id : Nat)
    (store_id code name : String) (ncm unit cst_icms : Option String) :
    Except DBErr (Nat × DBState) :=
  match upsert_product_by_code st (some code) name ncm unit cst_icms with
  | .error e => .error e
  | .ok (pid, st1) =>
    match ensure_alias st1 pid store_id name with
    | .error e => .error e
    | .ok st2 =>
      .ok (pid, { st2 with inbox := st2.inbox.filter (fun it => !(it.id == inbox_id)) })

/-! ### The import pipeline (`import_row`) -/

/-- The three `Resolution` outcomes `import_row` returns (the `dict`s
`{"status": ..., ...}` of the Python code). -/
inductive Resolution where
  | upsert_by_code (product_id : Nat)
  | matched_by_alias (product_id : Nat)
  | queued_inbox (suggested_product_id : Option Nat) (score : Nat)
deriving DecidableEq, Repr

/-- Python truthiness of the `code` argument at `if code:`: both `None` and
the empty string are falsy. -/
def codeTruthy : Option String → Bool
  | none => false
  | some c => !(c == "")

/-- The per-store exact alias lookup of branch 2 of `import_row`: the SQL
join returns a product id only when the alias row exists AND its product row
exists. -/
def aliasLookup (st : DBState) (store : String) (nn : String) : Option Nat :=
  (st.aliases.find? (fun a =>
    a.store_id == store && a.alias_norm == nn &&
      st.products.any (fun p => p.id == a.product_id))).map (fun a => a.product_id)

/-- Branch 3 of `import_row`: compute the fuzzy suggestion (without writing),
enqueue the raw line to the inbox with reason `"no_match"` (Python's
`score or None` stores `NULL` for a zero score) and report `queued_inbox`. -/
def enqueueBranch (st : DBState) (store_id name : String)
    (code ncm unit : Option String) (min_fuzzy_score : Nat)
    (scorer : String → String → Nat) : Except DBErr (Resolution × DBState) :=
  match best_suggestion st name min_fuzzy_score scorer with
  | (spid, score) =>
    match enqueue_inbox st store_id name code ncm unit "no_match" spid
        (if score = 0 then none else some score) with
    | .error e => .error e
    | .ok st1 => .ok (.queued_inbox spid score, st1)

/-- `import_row`, the resolution state machine: (1) a truthy `code` is
authoritative — upsert by code and ensure the alias; (2) otherwise try the
exact per-store alias on the normalized name (the returned id goes through
Python truthiness at `if pid:`, so a hypothetical id 0 would fall through);
(3) otherwise enqueue to the inbox with the fuzzy suggestion attached. -/
def import_row (st : DBState) (store_id name : String) (code : Option String)
    (ncm unit cst_icms : Option String) (min_fuzzy_score : Nat)
    (scorer : String → String → Nat) : Except DBErr (Resolution × DBState) :=
  if codeTruthy code then
    match upsert_product_by_code st code name ncm unit cst_icms with
    | .error e => .error e
    | .ok (pid, st1) =>
      match ensure_alias st1 pid store_id name with
      | .error e => .error e
      | .ok st2 => .ok (.upsert_by_code pid, st2)
  else
    match aliasLookup st store_id (normalize_name name) with
    | some pid =>
      if pid ≠ 0 then
        match ensure_alias st pid store_id name with
        | .error e => .error e
        | .ok st1 => .ok (.matched_by_alias pid, st1)
      else enqueueBranch st store_id name code ncm unit min_fuzzy_score scorer
    | none => enqueueBranch st store_id name code ncm unit min_fuzzy_score scorer

/-! ### Observation helpers and a concrete end-to-end scenario -/

/-- The `Resolution` outcome of a pipeline call, `none` on an SQL error. -/
def resOf : Except DBErr (Resolution × DBState) → Option Resolution
  | .ok (r, _) => some r
  | .error _ => none

/-- The state after a pipeline call (the error case never occurs where this
is used; `db0` is a dummy). -/
def stateOf : Except DBErr (Resolution × DBState) → DBState
  | .ok (_, s) => s
  | .error _ => db0

/-- The product id returned by `approve_inbox_create_product` /
`upsert_product_by_code`, `none` on an SQL error. -/
def createdIdOf : Except DBErr (Nat × DBState) → Option Nat
  | .ok (pid, _) => some pid
  | .error _ => none

/-- The state after `approve_inbox_create_product` / `upsert_product_by_code`. -/
def createdStateOf : Except DBErr (Nat × DBState) → DBState
  | .ok (_, s) => s
  | .error _ => db0

/-- A degenerate similarity scorer (the fuzzy engine is irrelevant to the
scenario below: the first import hits an empty catalog, the second one is
resolved by the alias branch before fuzzy matching is reached). -/
def zeroScorer : String → String → Nat := fun _ _ => 0

/-- Step 1 of the spec's end-to-end scenario: import a row for store `"A"`
with raw name `"Pimentão Verde Pct"` and a blank code into an empty catalog. -/
def c5_r1 : Except DBErr (Resolution × DBState) :=
  import_row db0 "A" "Pimentão Verde Pct" (some "") none none none 90 zeroScorer

def c5_s1 : DBState := stateOf c5_r1

/-- Step 2: a human approves the queued inbox item (id 1) as a new product
with code `"07096000"` and the original inbox name. -/
def c5_r2 : Except DBErr (Nat × DBState) :=
  approve_inbox_create_product c5_s1 1 "A" "07096000" "Pimentão Verde Pct" none none none

def c5_s2 : DBState := createdStateOf c5_r2

/-- Step 3: re-import the same product under the different raw spelling
`"PIMENTAO VERDE PACOTE"`, still with a blank code. -/
def c5_r3 : Except DBErr (Resolution × DBState) :=
  import_row c5_s2 "A" "PIMENTAO VERDE PACOTE" (some "") none none none 90 zeroScorer

/-- Concrete one-product state used to exhibit alias creation on an
inactive product: product 1 exists but is retired (`active = false`). -/
def inactiveState : DBState :=
  { products := [{ id := 1, code := "P1", name := "Old", name_norm := "OLD",
                   ncm := none, unit := none, cst_icms := none, active := false }],
    aliases := [], inbox := [], nextProductId := 2, nextInboxId := 1 }

/-- Concrete one-product state with an active product, used as a witness
input for the fuzzy-suggestion theorems. -/
def activeState : DBState :=
  { products := [{ id := 1, code := "P1", name := "X", name_norm := "X",
                   ncm := none, unit := none, cst_icms := none, active := true }],
    aliases := [], inbox := [], nextProductId := 2, nextInboxId := 1 }

end Emissor

/-! ## Supporting lemmas shared by the claim theorems -/

namespace Emissor

theorem extractGo_fst_lt (scorer : String → String → Nat) (q : String)
    (ns : List String) (i : Nat) (best : Nat × Nat) (L : Nat)
    (hb : best.1 < L) (hi : i + ns.length ≤ L) :
    (extractGo scorer q i best ns).1 < L := by
  induction ns generalizing i best with
  | nil => simpa [extractGo] using hb
  | cons n ns ih =>
    simp only [extractGo]
    by_cases h : scorer q n > best.2
    · rw [if_pos h]
      refine ih (i + 1) (i, scorer q n) ?_ ?_
      · simp only [List.length_cons] at hi
        omega
      · simp only [List.length_cons] at hi
        omega
    · rw [if_neg h]
      refine ih (i + 1) best hb ?_
      simp only [List.length_cons] at hi
      omega

theorem extractOne_idx_lt (scorer : String → String → Nat) (q : String)
    (names : List String) (idx score : Nat)
    (h : extractOne scorer q names = some (idx, score)) : idx < names.length := by
  cases names with
  | nil => simp [extractOne] at h
  | cons n ns =>
    simp only [extractOne, Option.some.injEq] at h
    have := extractGo_fst_lt scorer q ns 1 (0, scorer q n) (ns.length + 1)
      (by omega) (by omega)
    rw [h] at this
    simpa using this

/-- `best_suggestion` only ever proposes the id of an ACTIVE product of the
catalog (the candidate rows are `SELECT ... WHERE active`). -/
theorem best_suggestion_mem_active (st : DBState) (name : String) (m : Nat)
    (scorer : String → String → Nat) (pid sc : Nat)
    (h : best_suggestion st name m scorer = (some pid, sc)) :
    ∃ p ∈ st.products, p.active = true ∧ p.id = pid := by
  simp only [best_suggestion] at h
  split at h
  · simp at h
  · split at h
    next hex => simp at h
    next idx score hex =>
      split at h
      next hms =>
        simp only [Prod.mk.injEq, Option.some.injEq] at h
        obtain ⟨hpid, hsc⟩ := h
        have hidx := extractOne_idx_lt _ _ _ _ _ hex
        rw [List.length_map] at hidx
        have hlt : idx < ((activeRows st).map (fun p => p.id)).length := by
          rw [List.length_map]; exact hidx
        rw [List.getD_eq_getElem _ _ hlt] at hpid
        have hmem := List.getElem_mem hlt
        rw [hpid] at hmem
        obtain ⟨p, hp, hpeq⟩ := List.mem_map.mp hmem
        obtain ⟨hp1, hp2⟩ := List.mem_filter.mp hp
        exact ⟨p, hp1, by simpa using hp2, hpeq⟩
      next hms => simp at h

/-- Convenience form: a suggested id satisfies the foreign-key check of the
inbox insert. -/
theorem best_suggestion_fk (st : DBState) (name : String) (m : Nat)
    (scorer : String → String → Nat) (pid : Nat) (sc : Nat)
    (h : best_suggestion st name m scorer = (some pid, sc)) :
    st.products.any (fun p => p.id == pid) = true := by
  obtain ⟨p, hp, _, hid⟩ := best_suggestion_mem_active st name m scorer pid sc h
  exact List.any_eq_true.mpr ⟨p, hp, by simp [hid]⟩

/-- With a present (`some`) code, `upsert_product_by_code` always succeeds. -/
theorem upsert_some_ok (st : DBState) (c name : String)
    (ncm unit cst : Option String) :
    ∃ pid st', upsert_product_by_code st (some c) name ncm unit cst = .ok (pid, st') := by
  simp only [upsert_product_by_code]
  cases hfind : st.products.find? (fun p => p.code == c) with
  | none => exact ⟨_, _, rfl⟩
  | some p => exact ⟨_, _, rfl⟩

/-- The id returned by a successful upsert is the id of a row of the
resulting products table. -/
theorem upsert_ok_id_mem (st : DBState) (c name : String)
    (ncm unit cst : Option String) (pid : Nat) (st' : DBState)
    (h : upsert_product_by_code st (some c) name ncm unit cst = .ok (pid, st')) :
    st'.products.any (fun p => p.id == pid) = true := by
  simp only [upsert_product_by_code] at h
  cases hfind : st.products.find? (fun p => p.code == c) with
  | none =>
    rw [hfind] at h
    simp only [Except.ok.injEq, Prod.mk.injEq] at h
    obtain ⟨hpid, hst⟩ := h
    rw [← hst]
    refine List.any_eq_true.mpr ⟨_, List.mem_append_right _ (List.mem_singleton.mpr rfl), ?_⟩
    simp [newProduct, hpid]
  | some p =>
    rw [hfind] at h
    simp only [Except.ok.injEq, Prod.mk.injEq] at h
    obtain ⟨hpid, hst⟩ := h
    have hpmem := List.mem_of_find?_eq_some hfind
    have hpc := List.find?_some hfind
    rw [← hst]
    refine List.any_eq_true.mpr ⟨_, List.mem_map_of_mem _ hpmem, ?_⟩
    simp only [updateByCode, if_pos hpc]
    simp [hpid]

/-- A successful upsert never touches aliases, inbox, or the inbox sequence. -/
theorem upsert_ok_frame (st : DBState) (c name : String)
    (ncm unit cst : Option String) (pid : Nat) (st' : DBState)
    (h : upsert_product_by_code st (some c) name ncm unit cst = .ok (pid, st')) :
    st'.aliases = st.aliases ∧ st'.inbox = st.inbox ∧ st'.nextInboxId = st.nextInboxId := by
  simp only [upsert_product_by_code] at h
  cases hfind : st.products.find? (fun p => p.code == c) with
  | none =>
    rw [hfind] at h
    simp only [Except.ok.injEq, Prod.mk.injEq] at h
    rw [← h.2]
    exact ⟨rfl, rfl, rfl⟩
  | some p =>
    rw [hfind] at h
    simp only [Except.ok.injEq, Prod.mk.injEq] at h
    rw [← h.2]
    exact ⟨rfl, rfl, rfl⟩

/-- `ensure_alias` succeeds whenever the referenced product exists, and it
only ever appends to the alias table (leaving everything else unchanged). -/
theorem ensure_alias_ok_of_mem (st : DBState) (pid : Nat) (store al : String)
    (hfk : st.products.any (fun p => p.id == pid) = true) :
    ∃ st', ensure_alias st pid store al = .ok st' ∧
      st'.products = st.products ∧ st'.inbox = st.inbox ∧
      st'.nextProductId = st.nextProductId ∧ st'.nextInboxId = st.nextInboxId := by
  simp only [ensure_alias]
  by_cases hconf : st.aliases.any (fun a =>
    a.store_id == store && a.alias_norm == normalize_name al)
  · rw [if_pos hconf]
    exact ⟨st, rfl, rfl, rfl, rfl, rfl⟩
  · rw [if_neg hconf, if_pos hfk]
    exact ⟨_, rfl, rfl, rfl, rfl, rfl⟩

end Emissor

/-! ## Claim theorems -/

namespace Emissor

/-- C1, counterexample: the claim says an empty `code` makes
`upsert_product_by_code` fail with no row written, but the code performs no
such validation — called on an empty catalog with `code = ""` it succeeds
and INSERTS a product row whose `code` is the empty string. -/
theorem c1_empty_code_inserts_row :
    upsert_product_by_code db0 (some "") "Widget" none none none =
      .ok (1, { products := [{ id := 1, code := "", name := "Widget",
                               name_norm := "WIDGET", ncm := none, unit := none,
                               cst_icms := none, active := true }],
                aliases := [], inbox := [], nextProductId := 2, nextInboxId := 1 }) := by
  rfl

/-- C1 (amended): only a NULL `code` makes `upsert_product_by_code` fail —
the insert hits the `NOT NULL` constraint on `products.code` and nothing is
written; an empty-string `code` is not validated and the operation succeeds,
inserting or updating a row with `code = ''`. -/
theorem c1_null_code_rejected_empty_code_accepted (st : DBState) (name : String)
    (ncm unit cst : Option String) :
    upsert_product_by_code st none name ncm unit cst = .error .notNull ∧
    ∃ pid st', upsert_product_by_code st (some "") name ncm unit cst = .ok (pid, st') :=
  ⟨rfl, upsert_some_ok st "" name ncm unit cst⟩

/-- C2, counterexample: the claim says inactive products do not accept new
aliases, but `ensure_alias` never consults the `active` flag — in a state
whose only product (id 1) is inactive, it happily inserts a brand-new alias
row pointing at that inactive product. -/
theorem c2_alias_created_on_inactive_product :
    (∀ p ∈ inactiveState.products, p.active = false) ∧
    ensure_alias inactiveState 1 "S" "Foo" =
      .ok { inactiveState with
              aliases := [{ product_id := 1, store_id := "S",
                            alias_text := "Foo", alias_norm := "FOO" }] } :=
  ⟨by decide, rfl⟩

/-- C2 (amended): inactive products are excluded from fuzzy suggestion —
whenever `best_suggestion` proposes an id, that id belongs to an ACTIVE
product of the catalog; but alias creation performs no such check, so new
alias rows CAN point at inactive products (see the counterexample). -/
theorem c2_suggestion_only_returns_active (st : DBState) (name : String) (m : Nat)
    (scorer : String → String → Nat) (pid sc : Nat)
    (h : best_suggestion st name m scorer = (some pid, sc)) :
    ∃ p ∈ st.products, p.active = true ∧ p.id = pid :=
  best_suggestion_mem_active st name m scorer pid sc h

/-- C2, witness: instantiating the amended theorem on a concrete one-product
catalog where the suggestion fires. -/
theorem c2_suggestion_only_returns_active_witness :
    ∃ p ∈ activeState.products, p.active = true ∧ p.id = 1 :=
  c2_suggestion_only_returns_active activeState "X" 90 (fun _ _ => 100) 1 100 (by decide)

/-- C4: a truthy `code` short-circuits `import_row` — the outcome is always
`upsert_by_code` carrying the upserted product's id (upsert followed by
`ensure_alias`), for EVERY starting state — in particular regardless of any
matching alias or fuzzy candidate — and the inbox is left untouched. -/
theorem c4_code_short_circuits (st : DBState) (store name : String)
    (code : Option String) (ncm unit cst : Option String) (m : Nat)
    (scorer : String → String → Nat) (hcode : codeTruthy code = true) :
    ∃ pid st1 st2,
      upsert_product_by_code st code name ncm unit cst = .ok (pid, st1) ∧
      ensure_alias st1 pid store name = .ok st2 ∧
      import_row st store name code ncm unit cst m scorer = .ok (.upsert_by_code pid, st2) ∧
      st2.inbox = st.inbox := by
  cases code with
  | none => simp [codeTruthy] at hcode
  | some c =>
    obtain ⟨pid, st1, hup⟩ := upsert_some_ok st c name ncm unit cst
    have hmem := upsert_ok_id_mem st c name ncm unit cst pid st1 hup
    obtain ⟨st2, hen, _, hinbox1, _, _⟩ := ensure_alias_ok_of_mem st1 pid store name hmem
    refine ⟨pid, st1, st2, hup, hen, ?_, ?_⟩
    · simp only [import_row, if_pos hcode, hup, hen]
    · obtain ⟨_, hinbox0, _⟩ := upsert_ok_frame st c name ncm unit cst pid st1 hup
      rw [hinbox1, hinbox0]

/-- C4, witness: the code branch on the empty catalog. -/
theorem c4_code_short_circuits_witness :
    ∃ pid st1 st2,
      upsert_product_by_code db0 (some "C1") "Prod X" none none none = .ok (pid, st1) ∧
      ensure_alias st1 pid "S" "Prod X" = .ok st2 ∧
      import_row db0 "S" "Prod X" (some "C1") none none none 90 zeroScorer =
        .ok (.upsert_by_code pid, st2) ∧
      st2.inbox = db0.inbox :=
  c4_code_short_circuits db0 "S" "Prod X" (some "C1") none none none 90 zeroScorer (by decide)

/-- C5: the spec's end-to-end scenario — importing `"Pimentão Verde Pct"`
for store `"A"` with a blank code into an empty catalog queues an inbox item
(with no suggestion: the catalog is empty); after human approval as a new
product (code `"07096000"`, the original inbox name), importing the
different spelling `"PIMENTAO VERDE PACOTE"` resolves as `matched_by_alias`
with the approved product's id 1 — not as a fresh inbox entry. -/
theorem c5_end_to_end_scenario :
    resOf c5_r1 = some (.queued_inbox none 0) ∧
    createdIdOf c5_r2 = some 1 ∧
    resOf c5_r3 = some (.matched_by_alias 1) := by
  decide

end Emissor

/-! ## Further supporting lemmas (alias lookup, inbox branch, update frame) -/

namespace Emissor

/-- If no alias row matches the `(store, normalized name)` pair, the SQL join
of branch 2 of `import_row` returns no product id. -/
theorem aliasLookup_eq_none (st : DBState) (store nn : String)
    (halias : st.aliases.any (fun a =>
      a.store_id == store && a.alias_norm == nn) = false) :
    aliasLookup st store nn = none := by
  unfold aliasLookup
  rw [List.find?_eq_none.mpr, Option.map_none']
  intro a ha hpa
  have hall := List.any_eq_false.mp halias a ha
  simp only [Bool.and_eq_true] at hpa hall
  exact hall ⟨hpa.1.1, hpa.1.2⟩

/-- A product id delivered by the alias join refers to an existing product
row (the join condition includes it). -/
theorem aliasLookup_fk (st : DBState) (store nn : String) (pid : Nat)
    (h : aliasLookup st store nn = some pid) :
    st.products.any (fun p => p.id == pid) = true := by
  unfold aliasLookup at h
  cases hf : st.aliases.find? (fun a =>
      a.store_id == store && a.alias_norm == nn &&
        st.products.any (fun p => p.id == a.product_id)) with
  | none => rw [hf] at h; simp at h
  | some a =>
    rw [hf] at h
    simp only [Option.map_some', Option.some.injEq] at h
    have hpa := List.find?_some hf
    simp only [Bool.and_eq_true] at hpa
    rw [← h]
    exact hpa.2

/-- The fuzzy suggestion always passes the inbox foreign-key check. -/
theorem suggestedFkOk_of_best (st : DBState) (name : String) (m : Nat)
    (scorer : String → String → Nat) (spid : Option Nat) (score : Nat)
    (hbs : best_suggestion st name m scorer = (spid, score)) :
    suggestedFkOk st spid = true := by
  cases hspid : spid with
  | none => rfl
  | some i =>
    exact best_suggestion_fk st name m scorer i score (hspid ▸ hbs)

/-- The inbox branch of `import_row` always succeeds, appends exactly one
inbox row carrying the fuzzy suggestion, and leaves products and aliases
untouched; the stored `raw_code` is the only part of the result that depends
on the (falsy) `code` argument. -/
theorem enqueueBranch_spec (st : DBState) (store name : String)
    (code ncm unit : Option String) (m : Nat) (scorer : String → String → Nat)
    (spid : Option Nat) (score : Nat)
    (hbs : best_suggestion st name m scorer = (spid, score)) :
    enqueueBranch st store name code ncm unit m scorer =
      .ok (.queued_inbox spid score,
        { st with
          inbox := st.inbox ++
            [{ id := st.nextInboxId, store_id := store, raw_name := name,
               raw_code := code, raw_ncm := ncm, raw_unit := unit,
               reason := some "no_match", suggested_product_id := spid,
               score := if score = 0 then none else some score }],
          nextInboxId := st.nextInboxId + 1 }) := by
  have hfk := suggestedFkOk_of_best st name m scorer spid score hbs
  simp only [enqueueBranch, hbs, enqueue_inbox, if_pos hfk]

/-- Unfolding equation of the UPDATE arm row function. -/
theorem updateByCode_cons (q : Product) (l : List Product) (c n : String)
    (ncm unit cst : Option String) :
    updateByCode (q :: l) c n ncm unit cst =
      (if q.code == c then
        { q with name := n, name_norm := normalize_name n, ncm := ncm,
                 unit := unit, cst_icms := cst }
       else q) :: updateByCode l c n ncm unit cst := rfl

/-- The UPDATE arm never changes any `code` column, so per-code row counts
are preserved. -/
theorem updateByCode_countP (l : List Product) (c n : String)
    (ncm unit cst : Option String) (c' : String) :
    (updateByCode l c n ncm unit cst).countP (fun p => p.code == c') =
      l.countP (fun p => p.code == c') := by
  induction l with
  | nil => rfl
  | cons q l ih =>
    rw [updateByCode_cons, List.countP_cons, List.countP_cons, ih]
    by_cases h : q.code == c
    · rw [if_pos h]
    · rw [if_neg h]

/-- Every row of the UPDATE arm's output comes from a unique input row,
either rewritten (when its code matches) or untouched. -/
theorem mem_updateByCode (l : List Product) (c n : String)
    (ncm unit cst : Option String) (p : Product)
    (hp : p ∈ updateByCode l c n ncm unit cst) :
    ∃ q ∈ l, p = if q.code == c then
        { q with name := n, name_norm := normalize_name n, ncm := ncm,
                 unit := unit, cst_icms := cst }
      else q := by
  obtain ⟨q, hq, heq⟩ := List.mem_map.mp hp
  exact ⟨q, hq, heq.symm⟩

/-- Zipping a list with its image under a map pairs each element with its
image. -/
theorem zip_map_snd {α : Type} (f : α → α) (l : List α) :
    ∀ pq ∈ List.zip l (l.map f), pq.2 = f pq.1 := by
  induction l with
  | nil => intro pq hpq; simp at hpq
  | cons a l ih =>
    intro pq hpq
    rw [List.map_cons, List.zip_cons_cons] at hpq
    rcases List.mem_cons.mp hpq with h | h
    · rw [h]
    · exact ih pq h

end Emissor

namespace Emissor

/-- C3: with no truthy `code` and no existing `(store, normalize(name))`
alias, `import_row` yields `queued_inbox` and inserts EXACTLY one new inbox
row — even when a fuzzy candidate clears `min_fuzzy_score`, the suggestion is
only attached to that inbox row (products and aliases are untouched, for any
scorer whatsoever); and with zero active products the suggestion is null. -/
theorem c3_no_match_always_queues (st : DBState) (store name : String)
    (code : Option String) (ncm unit cst : Option String) (m : Nat)
    (scorer : String → String → Nat)
    (hcode : codeTruthy code = false)
    (halias : st.aliases.any (fun a =>
      a.store_id == store && a.alias_norm == normalize_name name) = false) :
    ∃ spid score st',
      import_row st store name code ncm unit cst m scorer =
        .ok (.queued_inbox spid score, st') ∧
      best_suggestion st name m scorer = (spid, score) ∧
      st'.products = st.products ∧
      st'.aliases = st.aliases ∧
      st'.inbox = st.inbox ++
        [{ id := st.nextInboxId, store_id := store, raw_name := name,
           raw_code := code, raw_ncm := ncm, raw_unit := unit,
           reason := some "no_match", suggested_product_id := spid,
           score := if score = 0 then none else some score }] ∧
      (activeRows st = [] → spid = none) := by
  have hcode' : ¬(codeTruthy code = true) := by rw [hcode]; simp
  cases hbs : best_suggestion st name m scorer with
  | mk spid score =>
    have hlook := aliasLookup_eq_none st store (normalize_name name) halias
    have henq := enqueueBranch_spec st store name code ncm unit m scorer spid score hbs
    refine ⟨spid, score,
      { st with
        inbox := st.inbox ++
          [{ id := st.nextInboxId, store_id := store, raw_name := name,
             raw_code := code, raw_ncm := ncm, raw_unit := unit,
             reason := some "no_match", suggested_product_id := spid,
             score := if score = 0 then none else some score }],
        nextInboxId := st.nextInboxId + 1 },
      ?_, rfl, rfl, rfl, rfl, ?_⟩
    · unfold import_row
      rw [if_neg hcode', hlook]
      exact henq
    · intro hact
      have h0 : best_suggestion st name m scorer = (none, 0) := by
        unfold best_suggestion
        rw [hact]
        rfl
      rw [hbs] at h0
      exact congrArg Prod.fst h0

end Emissor

namespace Emissor

/-- C3, witness: a blank-code import of an unknown name into the empty
catalog queues one inbox row with a null suggestion. -/
theorem c3_no_match_always_queues_witness :
    ∃ spid score st',
      import_row db0 "A" "Foo" none none none none 90 zeroScorer =
        .ok (.queued_inbox spid score, st') ∧
      best_suggestion db0 "Foo" 90 zeroScorer = (spid, score) ∧
      st'.products = db0.products ∧
      st'.aliases = db0.aliases ∧
      st'.inbox = db0.inbox ++
        [{ id := db0.nextInboxId, store_id := "A", raw_name := "Foo",
           raw_code := none, raw_ncm := none, raw_unit := none,
           reason := some "no_match", suggested_product_id := spid,
           score := if score = 0 then none else some score }] ∧
      (activeRows db0 = [] → spid = none) :=
  c3_no_match_always_queues db0 "A" "Foo" none none none none 90 zeroScorer
    (by decide) (by decide)

/-- C6: starting from a state with no `(store, normalize(alias))` row and a
valid first product id, calling `ensure_alias` twice with the same pair —
whatever the two product ids are — leaves exactly one alias row for the
pair, pointing at the FIRST call's product; the second call errors nowhere
and repoints nothing (it returns the very same state). -/
theorem c6_ensure_alias_twice_noop (st : DBState) (store al : String)
    (pid1 pid2 : Nat)
    (hfresh : st.aliases.any (fun a =>
      a.store_id == store && a.alias_norm == normalize_name al) = false)
    (hfk : st.products.any (fun p => p.id == pid1) = true) :
    ∃ st1, ensure_alias st pid1 store al = .ok st1 ∧
      ensure_alias st1 pid2 store al = .ok st1 ∧
      (st1.aliases.filter (fun a =>
        a.store_id == store && a.alias_norm == normalize_name al)).map
          (fun a => a.product_id) = [pid1] := by
  have hfresh' : ¬(st.aliases.any (fun a =>
      a.store_id == store && a.alias_norm == normalize_name al) = true) := by
    rw [hfresh]; simp
  refine ⟨{ st with aliases := st.aliases ++
      [{ product_id := pid1, store_id := store, alias_text := al,
         alias_norm := normalize_name al }] }, ?_, ?_, ?_⟩
  · unfold ensure_alias
    rw [if_neg hfresh', if_pos hfk]
  · unfold ensure_alias
    rw [if_pos]
    refine List.any_eq_true.mpr ⟨_, List.mem_append_right _ (List.mem_singleton.mpr rfl), ?_⟩
    simp
  · have h1 : st.aliases.filter (fun a =>
        a.store_id == store && a.alias_norm == normalize_name al) = [] := by
      rw [List.filter_eq_nil_iff]
      intro a ha
      have := List.any_eq_false.mp hfresh a ha
      simpa using this
    simp only [List.filter_append, h1, List.nil_append]
    simp [List.filter]

/-- C6, witness: a fresh alias on the one-product catalog; the second call
passes a dangling product id 99 and is still a silent no-op. -/
theorem c6_ensure_alias_twice_noop_witness :
    ∃ st1, ensure_alias activeState 1 "S" "Bar" = .ok st1 ∧
      ensure_alias st1 99 "S" "Bar" = .ok st1 ∧
      (st1.aliases.filter (fun a =>
        a.store_id == "S" && a.alias_norm == normalize_name "Bar")).map
          (fun a => a.product_id) = [1] :=
  c6_ensure_alias_twice_noop activeState "S" "Bar" 1 99 (by decide) (by decide)

end Emissor

namespace Emissor

/-- Searching an appended list when the first part has no hit. -/
theorem find?_append_of_none {α : Type} (p : α → Bool) (l1 l2 : List α)
    (h : l1.find? p = none) : (l1 ++ l2).find? p = l2.find? p := by
  induction l1 with
  | nil => simp
  | cons a l ih =>
    rw [List.find?_cons] at h
    rw [List.cons_append, List.find?_cons]
    cases hpa : p a with
    | true => rw [hpa] at h; simp at h
    | false =>
      rw [hpa] at h
      exact ih h

/-- After the UPDATE arm runs with name `n`, every row whose code matches
carries `n` and its recomputed normal form. -/
theorem updateByCode_matching_fields (l : List Product) (c n : String)
    (ncm unit cst : Option String) :
    ∀ p ∈ updateByCode l c n ncm unit cst, p.code = c →
      p.name = n ∧ p.name_norm = normalize_name n := by
  intro p hp hpc
  obtain ⟨q, hq, heq⟩ := mem_updateByCode l c n ncm unit cst p hp
  by_cases h : (q.code == c) = true
  · rw [if_pos h] at heq
    rw [heq]
    exact ⟨rfl, rfl⟩
  · rw [if_neg h] at heq
    rw [heq] at hpc
    exact absurd (beq_iff_eq.mpr hpc) h

/-- Equation of the UPDATE arm of the upsert. -/
theorem upsert_found_eq (st : DBState) (c name : String)
    (ncm unit cst : Option String) (p0 : Product)
    (hfind : st.products.find? (fun p => p.code == c) = some p0) :
    upsert_product_by_code st (some c) name ncm unit cst =
      .ok (p0.id, { st with products := updateByCode st.products c name ncm unit cst }) := by
  simp only [upsert_product_by_code, hfind]

/-- Equation of the INSERT arm of the upsert. -/
theorem upsert_notfound_eq (st : DBState) (c name : String)
    (ncm unit cst : Option String)
    (hfind : st.products.find? (fun p => p.code == c) = none) :
    upsert_product_by_code st (some c) name ncm unit cst =
      .ok (st.nextProductId,
        { st with
          products := st.products ++ [newProduct st.nextProductId c name ncm unit cst],
          nextProductId := st.nextProductId + 1 }) := by
  simp only [upsert_product_by_code, hfind]

/-- C7: two `upsert_product_by_code` calls with the same `code` and
different names leave exactly one product row for that code, and its
`name` / `name_norm` reflect the SECOND call (last writer wins); no second
row is ever created.  The hypothesis is the `products.code` uniqueness
already enforced by the table's UNIQUE constraint. -/
theorem c7_upsert_twice_last_writer_wins (st : DBState) (c n1 n2 : String)
    (ncm1 unit1 cst1 ncm2 unit2 cst2 : Option String)
    (huniq : st.products.countP (fun p => p.code == c) ≤ 1) :
    ∃ pid1 st1 pid2 st2,
      upsert_product_by_code st (some c) n1 ncm1 unit1 cst1 = .ok (pid1, st1) ∧
      upsert_product_by_code st1 (some c) n2 ncm2 unit2 cst2 = .ok (pid2, st2) ∧
      st2.products.countP (fun p => p.code == c) = 1 ∧
      ∀ p ∈ st2.products, p.code = c →
        p.name = n2 ∧ p.name_norm = normalize_name n2 := by
  cases hfind : st.products.find? (fun p => p.code == c) with
  | none =>
    have hcount0 : st.products.countP (fun p => p.code == c) = 0 := by
      rw [List.countP_eq_zero]
      exact List.find?_eq_none.mp hfind
    have hnewc : ((newProduct st.nextProductId c n1 ncm1 unit1 cst1).code == c) = true := by
      simp [newProduct]
    have hfind1 : (st.products ++
        [newProduct st.nextProductId c n1 ncm1 unit1 cst1]).find?
          (fun p => p.code == c) =
        some (newProduct st.nextProductId c n1 ncm1 unit1 cst1) := by
      rw [find?_append_of_none _ _ _ hfind, List.find?_cons, hnewc]
    refine ⟨_, _, _, _, upsert_notfound_eq st c n1 ncm1 unit1 cst1 hfind,
      upsert_found_eq _ c n2 ncm2 unit2 cst2 _ hfind1, ?_, ?_⟩
    · rw [updateByCode_countP]
      rw [List.countP_append, hcount0, List.countP_cons, List.countP_nil, hnewc]
      simp
    · exact updateByCode_matching_fields _ c n2 ncm2 unit2 cst2
  | some p0 =>
    have hp0 := List.find?_some hfind
    have hcount1 : st.products.countP (fun p => p.code == c) = 1 := by
      have hpos : 0 < st.products.countP (fun p => p.code == c) :=
        List.countP_pos_iff.mpr ⟨p0, List.mem_of_find?_eq_some hfind, hp0⟩
      omega
    have hmem1 : ∃ a ∈ updateByCode st.products c n1 ncm1 unit1 cst1,
        (fun p => p.code == c) a = true := by
      refine ⟨_, List.mem_map_of_mem _ (List.mem_of_find?_eq_some hfind), ?_⟩
      rw [if_pos hp0]
      exact hp0
    obtain ⟨p1, hfind1⟩ := Option.isSome_iff_exists.mp (List.find?_isSome.mpr hmem1)
    refine ⟨_, _, _, _, upsert_found_eq st c n1 ncm1 unit1 cst1 p0 hfind,
      upsert_found_eq _ c n2 ncm2 unit2 cst2 p1 hfind1, ?_, ?_⟩
    · rw [updateByCode_countP, updateByCode_countP, hcount1]
    · exact updateByCode_matching_fields _ c n2 ncm2 unit2 cst2

/-- C7, witness: upserting code `"C7"` twice on the empty catalog. -/
theorem c7_upsert_twice_last_writer_wins_witness :
    ∃ pid1 st1 pid2 st2,
      upsert_product_by_code db0 (some "C7") "First" none none none = .ok (pid1, st1) ∧
      upsert_product_by_code st1 (some "C7") "Second" (some "123") none none = .ok (pid2, st2) ∧
      st2.products.countP (fun p => p.code == "C7") = 1 ∧
      ∀ p ∈ st2.products, p.code = "C7" →
        p.name = "Second" ∧ p.name_norm = normalize_name "Second" :=
  c7_upsert_twice_last_writer_wins db0 "C7" "First" "Second"
    none none none (some "123") none none (by decide)

end Emissor

namespace Emissor

/-- C9: when a row for `code` already exists, the upsert's UPDATE writes
exactly `name`, `name_norm`, `ncm`, `unit`, `cst_icms` and leaves `id`,
`code` and `active` untouched on that row (an inactive product stays
inactive), leaves every other row, the other tables and the sequences
unchanged, and adds or removes no row; since all five fields are always
written, a `none` argument overwrites a previously stored value with NULL. -/
theorem c9_update_writes_exactly_five_fields (st : DBState) (c name : String)
    (ncm unit cst : Option String)
    (hex : ∃ p ∈ st.products, p.code = c) :
    ∃ pid st',
      upsert_product_by_code st (some c) name ncm unit cst = .ok (pid, st') ∧
      st'.aliases = st.aliases ∧ st'.inbox = st.inbox ∧
      st'.nextProductId = st.nextProductId ∧ st'.nextInboxId = st.nextInboxId ∧
      st'.products.length = st.products.length ∧
      ∀ pq ∈ List.zip st.products st'.products,
        (pq.1.code = c →
          pq.2 = { pq.1 with name := name, name_norm := normalize_name name,
                             ncm := ncm, unit := unit, cst_icms := cst }) ∧
        (pq.1.code ≠ c → pq.2 = pq.1) := by
  obtain ⟨q, hq, hqc⟩ := hex
  have hexB : ∃ a ∈ st.products, (fun p => p.code == c) a = true :=
    ⟨q, hq, beq_iff_eq.mpr hqc⟩
  obtain ⟨p0, hfind⟩ := Option.isSome_iff_exists.mp (List.find?_isSome.mpr hexB)
  refine ⟨_, _, upsert_found_eq st c name ncm unit cst p0 hfind,
    rfl, rfl, rfl, rfl, ?_, ?_⟩
  · simp [updateByCode]
  · intro pq hpq
    have h2 := zip_map_snd
      (fun q => if q.code == c then
          { q with name := name, name_norm := normalize_name name, ncm := ncm,
                   unit := unit, cst_icms := cst }
        else q) st.products pq (by exact hpq)
    simp only at h2
    constructor
    · intro hpc
      rw [h2]
      simp only [if_pos (beq_iff_eq.mpr hpc)]
    · intro hpc
      rw [h2]
      simp only [if_neg (fun hb => hpc (beq_iff_eq.mp hb))]

/-- C9, witness: overwriting the only product of the one-product catalog. -/
theorem c9_update_writes_exactly_five_fields_witness :
    ∃ pid st',
      upsert_product_by_code activeState (some "P1") "New Name" none none none =
        .ok (pid, st') ∧
      st'.aliases = activeState.aliases ∧ st'.inbox = activeState.inbox ∧
      st'.nextProductId = activeState.nextProductId ∧
      st'.nextInboxId = activeState.nextInboxId ∧
      st'.products.length = activeState.products.length ∧
      ∀ pq ∈ List.zip activeState.products st'.products,
        (pq.1.code = "P1" →
          pq.2 = { pq.1 with name := "New Name",
                             name_norm := normalize_name "New Name",
                             ncm := none, unit := none, cst_icms := none }) ∧
        (pq.1.code ≠ "P1" → pq.2 = pq.1) :=
  c9_update_writes_exactly_five_fields activeState "P1" "New Name" none none none
    (by decide)

/-- Branch-2 reduction of `import_row`: falsy code, alias hit with a truthy
product id. -/
theorem import_row_matched_eq (st : DBState) (store name : String)
    (code ncm unit cst : Option String) (m : Nat)
    (scorer : String → String → Nat) (pid : Nat) (st1 : DBState)
    (hcode : ¬(codeTruthy code = true))
    (hlook : aliasLookup st store (normalize_name name) = some pid)
    (hz : pid ≠ 0)
    (hen : ensure_alias st pid store name = .ok st1) :
    import_row st store name code ncm unit cst m scorer =
      .ok (.matched_by_alias pid, st1) := by
  unfold import_row
  rw [if_neg hcode, hlook]
  simp only [if_pos hz, hen]

/-- Branch-3 reduction of `import_row`: falsy code, and either no alias hit
or a hit whose product id is the falsy 0. -/
theorem import_row_queue_eq (st : DBState) (store name : String)
    (code ncm unit cst : Option String) (m : Nat)
    (scorer : String → String → Nat)
    (hcode : ¬(codeTruthy code = true))
    (hlook : aliasLookup st store (normalize_name name) = none ∨
      aliasLookup st store (normalize_name name) = some 0) :
    import_row st store name code ncm unit cst m scorer =
      enqueueBranch st store name code ncm unit m scorer := by
  unfold import_row
  rw [if_neg hcode]
  rcases hlook with h | h
  · rw [h]
  · rw [h]
    simp

end Emissor

namespace Emissor

/-- The inbox-branch half of the empty-code/none-code comparison: when the
alias lookup misses (or returns the falsy id 0), both calls queue the same
resolution, and the resulting states agree except for the stored
`raw_code`. -/
theorem import_row_code_absent_queue (st : DBState) (store name : String)
    (ncm unit cst : Option String) (m : Nat) (scorer : String → String → Nat)
    (hlookOr : aliasLookup st store (normalize_name name) = none ∨
      aliasLookup st store (normalize_name name) = some 0) :
    ∃ r stE stN,
      import_row st store name (some "") ncm unit cst m scorer = .ok (r, stE) ∧
      import_row st store name none ncm unit cst m scorer = .ok (r, stN) ∧
      (∀ pid, r ≠ .upsert_by_code pid) ∧
      stE.products = stN.products ∧ stE.aliases = stN.aliases ∧
      stE.inbox.map (fun it => { it with raw_code := none }) =
        stN.inbox.map (fun it => { it with raw_code := none }) := by
  have hE : ¬(codeTruthy (some "") = true) := by decide
  have hN : ¬(codeTruthy none = true) := by decide
  cases hbs : best_suggestion st name m scorer with
  | mk spid score =>
    have hq1 := import_row_queue_eq st store name (some "") ncm unit cst m scorer hE hlookOr
    have hq2 := import_row_queue_eq st store name none ncm unit cst m scorer hN hlookOr
    have he1 := enqueueBranch_spec st store name (some "") ncm unit m scorer spid score hbs
    have he2 := enqueueBranch_spec st store name none ncm unit m scorer spid score hbs
    refine ⟨.queued_inbox spid score,
      { st with
        inbox := st.inbox ++
          [{ id := st.nextInboxId, store_id := store, raw_name := name,
             raw_code := some "", raw_ncm := ncm, raw_unit := unit,
             reason := some "no_match", suggested_product_id := spid,
             score := if score = 0 then none else some score }],
        nextInboxId := st.nextInboxId + 1 },
      { st with
        inbox := st.inbox ++
          [{ id := st.nextInboxId, store_id := store, raw_name := name,
             raw_code := none, raw_ncm := ncm, raw_unit := unit,
             reason := some "no_match", suggested_product_id := spid,
             score := if score = 0 then none else some score }],
        nextInboxId := st.nextInboxId + 1 },
      ?_, ?_, ?_, ?_, ?_, ?_⟩
    · rw [hq1]; exact he1
    · rw [hq2]; exact he2
    · intro pid; simp
    · rfl
    · rfl
    · rw [List.map_append, List.map_append]
      rfl

/-- C10: `import_row` with `code = ""` behaves exactly as if no code were
supplied: the upsert branch is skipped (the outcome is never
`upsert_by_code`) and the alias-lookup / inbox branches run identically —
same resolution, same products and aliases; the only trace of the
difference is the literal `raw_code` stored on a queued inbox row (`''`
versus NULL), erased here before comparing. -/
theorem c10_empty_code_is_code_absent (st : DBState) (store name : String)
    (ncm unit cst : Option String) (m : Nat) (scorer : String → String → Nat) :
    ∃ r stE stN,
      import_row st store name (some "") ncm unit cst m scorer = .ok (r, stE) ∧
      import_row st store name none ncm unit cst m scorer = .ok (r, stN) ∧
      (∀ pid, r ≠ .upsert_by_code pid) ∧
      stE.products = stN.products ∧ stE.aliases = stN.aliases ∧
      stE.inbox.map (fun it => { it with raw_code := none }) =
        stN.inbox.map (fun it => { it with raw_code := none }) := by
  have hE : ¬(codeTruthy (some "") = true) := by decide
  have hN : ¬(codeTruthy none = true) := by decide
  cases hlook : aliasLookup st store (normalize_name name) with
  | none =>
    exact import_row_code_absent_queue st store name ncm unit cst m scorer (Or.inl hlook)
  | some pid =>
    by_cases hz : pid = 0
    · subst hz
      exact import_row_code_absent_queue st store name ncm unit cst m scorer (Or.inr hlook)
    · obtain ⟨st1, hen, _, _, _, _⟩ :=
        ensure_alias_ok_of_mem st pid store name (aliasLookup_fk st store _ pid hlook)
      exact ⟨.matched_by_alias pid, st1, st1,
        import_row_matched_eq st store name (some "") ncm unit cst m scorer pid st1 hE hlook hz hen,
        import_row_matched_eq st store name none ncm unit cst m scorer pid st1 hN hlook hz hen,
        by intro pid2; simp, rfl, rfl, rfl⟩

end Emissor

/-! ## Supporting lemmas for the normalizer (claim C8) -/

namespace Emissor

/-- The characters `normalize_name` can output: uppercase ASCII letters,
digits, and the single space. -/
def goodChar (c : Char) : Bool := isAsciiUpper c || isDigitCh c || c == ' '

theorem goodChar_cases (c : Char) (h : goodChar c = true) :
    (65 ≤ c.toNat ∧ c.toNat ≤ 90) ∨ (48 ≤ c.toNat ∧ c.toNat ≤ 57) ∨ c = ' ' := by
  simp only [goodChar, isAsciiUpper, isDigitCh, Bool.or_eq_true, Bool.and_eq_true,
    decide_eq_true_eq, beq_iff_eq] at h
  tauto

/-- Accent folding is the identity on the output alphabet. -/
theorem asciiFoldChar_good (c : Char) (h : goodChar c = true) :
    asciiFoldChar c = [c] := by
  rcases goodChar_cases c h with h1 | h1 | h1
  · unfold asciiFoldChar
    rw [if_pos (by omega)]
  · unfold asciiFoldChar
    rw [if_pos (by omega)]
  · subst h1
    rfl

/-- Uppercasing is the identity on the output alphabet. -/
theorem asciiUpperChar_good (c : Char) (h : goodChar c = true) :
    asciiUpperChar c = c := by
  rcases goodChar_cases c h with h1 | h1 | h1
  · unfold asciiUpperChar
    rw [if_neg]
    simp only [isAsciiLower, Bool.and_eq_true, decide_eq_true_eq]
    omega
  · unfold asciiUpperChar
    rw [if_neg]
    simp only [isAsciiLower, Bool.and_eq_true, decide_eq_true_eq]
    omega
  · subst h1
    rfl

/-- The punctuation sweep is the identity on the output alphabet. -/
theorem punctToSpace_good (c : Char) (h : goodChar c = true) :
    punctToSpace c = c := by
  rcases goodChar_cases c h with h1 | h1 | h1
  · unfold punctToSpace
    rw [if_pos]
    simp only [keepChar, isAsciiUpper, Bool.or_eq_true, Bool.and_eq_true,
      decide_eq_true_eq]
    exact Or.inl (Or.inl h1)
  · unfold punctToSpace
    rw [if_pos]
    simp only [keepChar, isDigitCh, Bool.or_eq_true, Bool.and_eq_true,
      decide_eq_true_eq]
    exact Or.inl (Or.inr h1)
  · subst h1
    rfl

/-- Every character the punctuation sweep emits is a kept character or a
space. -/
theorem mem_map_punctToSpace (l : List Char) (c : Char)
    (hc : c ∈ l.map punctToSpace) :
    (isAsciiUpper c || isDigitCh c || isPySpace c) = true := by
  obtain ⟨d, _, hdc⟩ := List.mem_map.mp hc
  rw [← hdc]
  unfold punctToSpace
  by_cases h : keepChar d = true
  · rw [if_pos h]
    exact h
  · rw [if_neg h]
    rfl

/-- A pointwise-identical map is the identity. -/
theorem map_id_of_mem {α : Type} (f : α → α) (l : List α)
    (h : ∀ c ∈ l, f c = c) : l.map f = l := by
  induction l with
  | nil => rfl
  | cons a l ih =>
    rw [List.map_cons, h a (List.mem_cons_self a l),
      ih (fun c hc => h c (List.mem_cons_of_mem a hc))]

/-- A pointwise-singleton flat map is the identity. -/
theorem flatten_map_id (f : Char → List Char) (l : List Char)
    (h : ∀ c ∈ l, f c = [c]) : (l.map f).flatten = l := by
  induction l with
  | nil => rfl
  | cons a l ih =>
    rw [List.map_cons, List.flatten_cons, h a (List.mem_cons_self a l),
      ih (fun c hc => h c (List.mem_cons_of_mem a hc))]
    rfl

end Emissor
namespace Emissor

/-! One-step unfolding equations of `splitWs`, phrased so that rewriting
never expands the recursive occurrences. -/

theorem splitWs_cons_space (a : Char) (l : List Char) (h : isPySpace a = true) :
    splitWs (a :: l) = splitWs l := by
  cases l with
  | nil => rw [splitWs.eq_2, if_pos h]
  | cons b t => rw [splitWs.eq_3, if_pos h]

theorem splitWs_singleton (a : Char) (h : isPySpace a = false) :
    splitWs [a] = [[a]] := by
  rw [splitWs.eq_2, if_neg (by simp [h])]

theorem splitWs_cons_cons_space (a b : Char) (l : List Char)
    (ha : isPySpace a = false) (hb : isPySpace b = true) :
    splitWs (a :: b :: l) = [a] :: splitWs (b :: l) := by
  rw [splitWs.eq_3, if_neg (by simp [ha]), if_pos hb]

theorem splitWs_cons_cons_word (a b : Char) (l : List Char)
    (ha : isPySpace a = false) (hb : isPySpace b = false) :
    splitWs (a :: b :: l) =
      (a :: (splitWs (b :: l)).headD []) :: (splitWs (b :: l)).tail := by
  rw [splitWs.eq_3, if_neg (by simp [ha]), if_neg (by simp [hb])]

/-- Tokens produced by `splitWs` are nonempty and consist of non-whitespace
characters of the input. -/
theorem splitWs_sound (l : List Char) :
    ∀ tok ∈ splitWs l, tok ≠ [] ∧ ∀ c ∈ tok, c ∈ l ∧ isPySpace c = false := by
  induction l using splitWs.induct with
  | case1 =>
    intro tok h
    simp [splitWs] at h
  | case2 a tail hsp ih =>
    intro tok htok
    rw [splitWs_cons_space a tail hsp] at htok
    obtain ⟨h1, h2⟩ := ih tok htok
    exact ⟨h1, fun d hd => ⟨List.mem_cons_of_mem _ (h2 d hd).1, (h2 d hd).2⟩⟩
  | case3 a hsp =>
    intro tok htok
    rw [splitWs_singleton a (by simpa using hsp)] at htok
    rw [List.mem_singleton] at htok
    subst htok
    refine ⟨by simp, fun d hd => ?_⟩
    rw [List.mem_singleton] at hd
    subst hd
    exact ⟨List.mem_singleton.mpr rfl, by simpa using hsp⟩
  | case4 a hsp b tail hb ih =>
    intro tok htok
    rw [splitWs_cons_cons_space a b tail (by simpa using hsp) hb] at htok
    rcases List.mem_cons.mp htok with h1 | h1
    · subst h1
      refine ⟨by simp, fun d hd => ?_⟩
      rw [List.mem_singleton] at hd
      subst hd
      exact ⟨List.mem_cons_self _ _, by simpa using hsp⟩
    · obtain ⟨h2, h3⟩ := ih tok h1
      exact ⟨h2, fun d hd => ⟨List.mem_cons_of_mem _ (h3 d hd).1, (h3 d hd).2⟩⟩
  | case5 a hsp b tail hb ih =>
    intro tok htok
    rw [splitWs_cons_cons_word a b tail (by simpa using hsp) (by simpa using hb)] at htok
    rcases List.mem_cons.mp htok with h1 | h1
    · subst h1
      refine ⟨by simp, fun d hd => ?_⟩
      rcases List.mem_cons.mp hd with hd1 | hd1
      · subst hd1
        exact ⟨List.mem_cons_self _ _, by simpa using hsp⟩
      · cases hs : splitWs (b :: tail) with
        | nil =>
          rw [hs] at hd1
          simp at hd1
        | cons t ts =>
          rw [hs] at hd1
          simp only [List.headD_cons] at hd1
          have hmem : t ∈ splitWs (b :: tail) := by
            rw [hs]
            exact List.mem_cons_self _ _
          obtain ⟨_, h3⟩ := ih t hmem
          exact ⟨List.mem_cons_of_mem _ (h3 d hd1).1, (h3 d hd1).2⟩
    · cases hs : splitWs (b :: tail) with
      | nil =>
        rw [hs] at h1
        simp at h1
      | cons t ts =>
        rw [hs] at h1
        simp only [List.tail_cons] at h1
        have hmem : tok ∈ splitWs (b :: tail) := by
          rw [hs]
          exact List.mem_cons_of_mem _ h1
        obtain ⟨h2, h3⟩ := ih tok hmem
        exact ⟨h2, fun d hd => ⟨List.mem_cons_of_mem _ (h3 d hd).1, (h3 d hd).2⟩⟩

end Emissor

namespace Emissor

/-- Splitting a clean token followed by a space (or the end) recovers the
token. -/
theorem splitWs_token_head (tok rest : List Char) (hne : tok ≠ [])
    (hcl : ∀ c ∈ tok, isPySpace c = false)
    (hrest : rest = [] ∨ ∃ d rs, rest = d :: rs ∧ isPySpace d = true) :
    splitWs (tok ++ rest) = tok :: splitWs rest := by
  induction tok with
  | nil => exact absurd rfl hne
  | cons a tok' ih =>
    have ha : isPySpace a = false := hcl a (List.mem_cons_self _ _)
    cases tok' with
    | nil =>
      rcases hrest with h | ⟨d, rs, hdr, hd⟩
      · subst h
        simpa using splitWs_singleton a ha
      · subst hdr
        rw [List.singleton_append]
        rw [splitWs_cons_cons_space a d rs ha hd]
    | cons b tok'' =>
      have hb : isPySpace b = false :=
        hcl b (List.mem_cons_of_mem _ (List.mem_cons_self _ _))
      have hih := ih (by simp)
        (fun c hc => hcl c (List.mem_cons_of_mem _ hc))
      rw [List.cons_append, List.cons_append,
        splitWs_cons_cons_word a b (tok'' ++ rest) ha hb]
      have hih' : splitWs (b :: (tok'' ++ rest)) = (b :: tok'') :: splitWs rest := by
        rw [← List.cons_append]
        exact hih
      rw [hih']
      simp

theorem joinSpace_cons_cons (t t2 : List Char) (ts : List (List Char)) :
    joinSpace (t :: t2 :: ts) = t ++ ' ' :: joinSpace (t2 :: ts) := rfl

/-- Splitting the space-joined form of clean nonempty tokens recovers the
tokens. -/
theorem splitWs_joinSpace (toks : List (List Char))
    (h : ∀ tok ∈ toks, tok ≠ [] ∧ ∀ c ∈ tok, isPySpace c = false) :
    splitWs (joinSpace toks) = toks := by
  induction toks with
  | nil => rfl
  | cons t ts ih =>
    obtain ⟨ht1, ht2⟩ := h t (List.mem_cons_self _ _)
    cases ts with
    | nil =>
      have := splitWs_token_head t [] ht1 ht2 (Or.inl rfl)
      simpa [joinSpace] using this
    | cons t2 ts' =>
      rw [joinSpace_cons_cons]
      rw [splitWs_token_head t (' ' :: joinSpace (t2 :: ts')) ht1 ht2
        (Or.inr ⟨' ', joinSpace (t2 :: ts'), rfl, by decide⟩)]
      rw [splitWs_cons_space ' ' _ (by decide)]
      rw [ih (fun tok htok => h tok (List.mem_cons_of_mem _ htok))]

/-- Collapsing whitespace is idempotent. -/
theorem collapseWs_collapseWs (l : List Char) :
    collapseWs (collapseWs l) = collapseWs l := by
  unfold collapseWs
  rw [splitWs_joinSpace (splitWs l) (fun tok htok =>
    ⟨(splitWs_sound l tok htok).1,
     fun c hc => ((splitWs_sound l tok htok).2 c hc).2⟩)]

/-- Characters of the space-joined tokens. -/
theorem mem_joinSpace (toks : List (List Char)) (c : Char)
    (hc : c ∈ joinSpace toks) : c = ' ' ∨ ∃ tok ∈ toks, c ∈ tok := by
  induction toks with
  | nil => simp [joinSpace] at hc
  | cons t ts ih =>
    cases ts with
    | nil =>
      exact Or.inr ⟨t, List.mem_cons_self _ _, by simpa [joinSpace] using hc⟩
    | cons t2 ts' =>
      rw [joinSpace_cons_cons] at hc
      rcases List.mem_append.mp hc with h | h
      · exact Or.inr ⟨t, List.mem_cons_self _ _, h⟩
      · rcases List.mem_cons.mp h with h1 | h1
        · exact Or.inl h1
        · rcases ih h1 with h2 | ⟨tok, htok, hct⟩
          · exact Or.inl h2
          · exact Or.inr ⟨tok, List.mem_cons_of_mem _ htok, hct⟩

/-- Characters of the collapsed text: a space, or a non-whitespace character
of the input. -/
theorem collapseWs_chars (l : List Char) (c : Char) (hc : c ∈ collapseWs l) :
    c = ' ' ∨ (c ∈ l ∧ isPySpace c = false) := by
  rcases mem_joinSpace _ c hc with h | ⟨tok, htok, hct⟩
  · exact Or.inl h
  · exact Or.inr ((splitWs_sound l tok htok).2 c hct)

/-- Every character `normalize_name` outputs is an uppercase ASCII letter, a
digit, or a space. -/
theorem normalize_name_chars (s : String) :
    ∀ c ∈ (normalize_name s).data, goodChar c = true := by
  intro c hc
  have hc' : c ∈ collapseWs
      ((applySubs (((s.data.map asciiFoldChar).flatten).map asciiUpperChar)).map
        punctToSpace) := hc
  rcases collapseWs_chars _ c hc' with h | ⟨h1, h2⟩
  · subst h
    rfl
  · have h3 := mem_map_punctToSpace _ c h1
    simp only [Bool.or_eq_true] at h3
    rcases h3 with (h4 | h4) | h4
    · simp [goodChar, h4]
    · simp [goodChar, h4]
    · rw [h2] at h4
      exact absurd h4 (by simp)

end Emissor

namespace Emissor

/-- C8, counterexample: `normalize_name` is NOT idempotent — the underscore
is a regex word character, so it shields `\bPCT\b` during abbreviation
expansion, yet step (4) deletes it afterwards; the second pass then sees a
bare `PCT` token and expands it: `normalize("_PCT_") = "PCT"` but
`normalize("PCT") = "PACOTE"`. -/
theorem c8_not_idempotent_on_underscores :
    normalize_name "_PCT_" = "PCT" ∧
    normalize_name (normalize_name "_PCT_") = "PACOTE" ∧
    normalize_name (normalize_name "_PCT_") ≠ normalize_name "_PCT_" := by
  decide

/-- C8 (amended): `normalize_name` terminates and returns a (possibly empty)
string on every input, but it is idempotent only when the abbreviation
expansion does not re-trigger on its own output — exactly when the
substitution pass fixes the normalized string.  In that case (which the
underscore counterexample escapes) a second normalization changes nothing,
because the output alphabet is stable under accent folding, uppercasing and
the punctuation sweep, and whitespace collapsing is idempotent. -/
theorem c8_idempotent_when_subs_fix_output (s : String)
    (h : applySubs (normalize_name s).data = (normalize_name s).data) :
    normalize_name (normalize_name s) = normalize_name s := by
  have hchars := normalize_name_chars s
  have hfold : ((normalize_name s).data.map asciiFoldChar).flatten =
      (normalize_name s).data :=
    flatten_map_id _ _ (fun c hc => asciiFoldChar_good c (hchars c hc))
  have hupper : (normalize_name s).data.map asciiUpperChar =
      (normalize_name s).data :=
    map_id_of_mem _ _ (fun c hc => asciiUpperChar_good c (hchars c hc))
  have hpunct : (normalize_name s).data.map punctToSpace =
      (normalize_name s).data :=
    map_id_of_mem _ _ (fun c hc => punctToSpace_good c (hchars c hc))
  show String.mk (collapseWs
    ((applySubs ((((normalize_name s).data.map asciiFoldChar).flatten).map
      asciiUpperChar)).map punctToSpace)) = normalize_name s
  rw [hfold, hupper, h, hpunct]
  have hcol : collapseWs ((normalize_name s).data) = (normalize_name s).data :=
    collapseWs_collapseWs
      ((applySubs (((s.data.map asciiFoldChar).flatten).map asciiUpperChar)).map
        punctToSpace)
  rw [hcol]

/-- C8, witness: an accented, doubly-spaced, punctuated name whose
normalization the substitution pass fixes; the amended theorem applies. -/
theorem c8_idempotent_when_subs_fix_output_witness :
    normalize_name (normalize_name "Pimentão  Verde!") =
      normalize_name "Pimentão  Verde!" :=
  c8_idempotent_when_subs_fix_output "Pimentão  Verde!" (by decide)

end Emissor
